import Mathlib

set_option maxRecDepth 8000

/-!
Verification of the evolutionary engine in stitcher/evolutionary.py.

The Python module is embedded shallowly:

* A candidate object is a reference (a natural number) into a heap of genetic
  payloads, so that object identity, aliasing and in place mutation are
  modelled faithfully.
* The three capabilities of the Candidate base class are a table of partial
  functions on the payload type; a capability a concrete variant does not
  supply is the value none and surfaces as the notImplemented error, the way
  the NotImplementedError stubs do in the source.
* Randomness is an oracle stream of natural numbers together with a cursor;
  random.randint(0, n - 1) reads the next stream value and reduces it modulo
  n, so every value in the range is realized by some oracle and the draw is
  uniform whenever the stream is. randint raises ValueError when the range is
  empty, exactly as in Python.
* Fallible steps live in Except: notImplemented for NotImplementedError,
  valueError for ValueError from randint, indexError for an out of range
  list access.
* Fractions and fitness values are rational numbers; int() truncation and
  negative slice endpoints follow the Python rules.
-/

/-- Errors the Python runtime can raise while the engine runs: a candidate
operation that is not implemented (NotImplementedError), an empty range given
to random.randint (ValueError), and an out of range list access (IndexError). -/
inductive Err
  | notImplemented
  | valueError
  | indexError
deriving DecidableEq

/-- The capability table of a concrete Candidate variant, acting on the
genetic payload of type gamma: fitness, mutate and crossover, as declared by
the Candidate base class. A missing capability is none, mirroring the
NotImplementedError stubs. -/
structure Candidate (γ : Type) where
  fitness : γ → Option ℚ
  mutate : γ → Option γ
  crossover : γ → γ → Option γ

/-- The configuration stored by BasicEvolution.__init__: percent_cutoff,
percent_diversity, percent_mutate and growth. -/
structure Config where
  cutoff : ℚ
  diversity : ℚ
  mutate : ℚ
  growth : ℚ
deriving DecidableEq

/-- The default arguments of BasicEvolution.__init__ (0.2, 0.1, 0.1, 1.0). -/
def defaultConfig : Config := ⟨2/10, 1/10, 1/10, 1⟩

/-- The mutable world: heap holds the genetic payload of every candidate
object created so far (a candidate reference is an index into it), ctr is the
cursor into the stream of pseudo random draws, and calls counts invocations
of the generation step (pure instrumentation: nothing reads it). -/
structure EvoState (γ : Type) where
  heap : List γ
  ctr : Nat
  calls : Nat
deriving DecidableEq

/-- Python int() applied to a rational number: truncation toward zero. -/
def pyInt (q : ℚ) : Int := if q < 0 then -(Int.floor (-q)) else Int.floor q

/-- Normalization of a Python slice endpoint (possibly negative) for a list
of length n: a negative endpoint counts from the end, and the result is
clamped into the interval from 0 to n. -/
def pyIdx (n : Nat) (i : Int) : Nat := if i < 0 then (i + n).toNat else min i.toNat n

/-- random.randint(0, hi): raises ValueError when hi is below 0, otherwise
consumes one oracle value and returns it reduced into the inclusive range
from 0 to hi. -/
def randint (o : Nat → Nat) (st : EvoState γ) (hi : Int) : Except Err (Nat × EvoState γ) :=
  if hi < 0 then .error .valueError
  else .ok (o st.ctr % (hi.toNat + 1), { st with ctr := st.ctr + 1 })

/-- int(len(population) * self.cutoff), normalized as a slice endpoint of the
population, as used twice at the top of BasicEvolution._darwin. -/
def cutOf (C : Config) (n : Nat) : Nat := pyIdx n (pyInt ((n : ℚ) * C.cutoff))

/-- div_pool = population[int(len(population) * self.cutoff):-1]. -/
def divPool (C : Config) (pop : List Nat) : List Nat :=
  (pop.take (pyIdx pop.length (-1))).drop (cutOf C pop.length)

/-- The diversity loop of BasicEvolution._darwin: each round picks a random
index into div_pool and appends that candidate to the new population. -/
def diversityLoop (o : Nat → Nat) (dp : List Nat) :
    List Nat → EvoState γ → Nat → Except Err (List Nat × EvoState γ)
  | np, st, 0 => .ok (np, st)
  | np, st, n+1 =>
    match randint o st ((dp.length : Int) - 1) with
    | .error e => .error e
    | .ok (i, st1) =>
      match dp.get? i with
      | none => .error .indexError
      | some c => diversityLoop o dp (np ++ [c]) st1 n

/-- The mutation loop of BasicEvolution._darwin: each round picks a random
index into the new population and mutates that candidate in place (the heap
cell is rewritten; the list of references is unchanged). -/
def mutateLoop (S : Candidate γ) (o : Nat → Nat) (np : List Nat) :
    EvoState γ → Nat → Except Err (EvoState γ)
  | st, 0 => .ok st
  | st, n+1 =>
    match randint o st ((np.length : Int) - 1) with
    | .error e => .error e
    | .ok (i, st1) =>
      match np.get? i with
      | none => .error .indexError
      | some c =>
        match st1.heap.get? c with
        | none => .error .indexError
        | some g =>
          match S.mutate g with
          | none => .error .notImplemented
          | some g1 => mutateLoop S o np { st1 with heap := st1.heap.set c g1 } n

/-- The breeding loop of BasicEvolution._darwin: both parent indices are drawn
by random.randint(0, len_new_pop - 1) and index into the original population;
the crossover child is a fresh object appended to the heap and to the new
population. -/
def breedLoop (S : Candidate γ) (o : Nat → Nat) (pop : List Nat) (lnp : Nat) :
    List Nat → EvoState γ → Nat → Except Err (List Nat × EvoState γ)
  | np, st, 0 => .ok (np, st)
  | np, st, n+1 =>
    match randint o st ((lnp : Int) - 1) with
    | .error e => .error e
    | .ok (i1, st1) =>
      match pop.get? i1 with
      | none => .error .indexError
      | some c1 =>
        match randint o st1 ((lnp : Int) - 1) with
        | .error e => .error e
        | .ok (i2, st2) =>
          match pop.get? i2 with
          | none => .error .indexError
          | some c2 =>
            match st2.heap.get? c1, st2.heap.get? c2 with
            | some g1, some g2 =>
              match S.crossover g1 g2 with
              | none => .error .notImplemented
              | some g =>
                breedLoop S o pop lnp (np ++ [st2.heap.length])
                  { st2 with heap := st2.heap ++ [g] } n
            | _, _ => .error .indexError

/-- BasicEvolution._darwin: elite retention by slicing, diversity injection
from div_pool, in place mutation of the new population, then breeding toward
the growth target int(len_pop * growth) using the snapshot len_new_pop. -/
def darwin (S : Candidate γ) (C : Config) (o : Nat → Nat) (pop : List Nat)
    (st : EvoState γ) : Except Err (List Nat × EvoState γ) :=
  let st0 : EvoState γ := { st with calls := st.calls + 1 }
  let n := pop.length
  let new0 := pop.take (cutOf C n)
  let dp := divPool C pop
  match diversityLoop o dp new0 st0 ((pyInt (C.diversity * (dp.length : ℚ))).toNat) with
  | .error e => .error e
  | .ok (np1, st1) =>
    match mutateLoop S o np1 st1 ((pyInt (C.mutate * (np1.length : ℚ))).toNat) with
    | .error e => .error e
    | .ok st2 =>
      breedLoop S o pop np1.length np1 st2
        ((pyInt ((n : ℚ) * C.growth) - (np1.length : Int)).toNat)

/-- candidate.fitness(): dereference the candidate object and apply the
fitness capability; a missing capability raises NotImplementedError. -/
def fitnessOf (S : Candidate γ) (heap : List γ) (c : Nat) : Except Err ℚ :=
  match heap.get? c with
  | none => .error .indexError
  | some g =>
    match S.fitness g with
    | none => .error .notImplemented
    | some q => .ok q

/-- The key pass of population.sort(key=...): fitness of every candidate in
list order, stopping at the first failure, as CPython computes all keys
before reordering. -/
def keyed (S : Candidate γ) (heap : List γ) : List Nat → Except Err (List (Nat × ℚ))
  | [] => .ok []
  | c :: cs =>
    match fitnessOf S heap c with
    | .error e => .error e
    | .ok q =>
      match keyed S heap cs with
      | .error e => .error e
      | .ok rest => .ok ((c, q) :: rest)

/-- Stable insertion into a key sorted list: a later element is placed after
earlier elements with an equal key, matching the stability of list.sort. -/
def insertK (x : Nat × ℚ) : List (Nat × ℚ) → List (Nat × ℚ)
  | [] => [x]
  | y :: ys => if x.2 ≤ y.2 then x :: y :: ys else y :: insertK x ys

/-- Stable ascending sort by key, modelling list.sort(key=...). -/
def sortK : List (Nat × ℚ) → List (Nat × ℚ)
  | [] => []
  | x :: xs => insertK x (sortK xs)

/-- population.sort(key=lambda candidate: candidate.fitness()). -/
def sortByFitness (S : Candidate γ) (heap : List γ) (pop : List Nat) :
    Except Err (List Nat) :=
  match keyed S heap pop with
  | .error e => .error e
  | .ok ks => .ok ((sortK ks).map Prod.fst)

/-- population[0].fitness(): IndexError on an empty population, otherwise the
fitness of the first (best) candidate. -/
def headFitness (S : Candidate γ) (heap : List γ) : List Nat → Except Err ℚ
  | [] => .error .indexError
  | c :: _ => fitnessOf S heap c

/-- sum(candidate.fitness() for candidate in population). -/
def sumFitness (S : Candidate γ) (heap : List γ) : List Nat → Except Err ℚ
  | [] => .ok 0
  | c :: cs =>
    match fitnessOf S heap c with
    | .error e => .error e
    | .ok q =>
      match sumFitness S heap cs with
      | .error e => .error e
      | .ok s => .ok (q + s)

/-- The opening of each loop body of BasicEvolution.run: the darwin step on
the current population followed by the re-sort of its result. -/
def generation (S : Candidate γ) (C : Config) (o : Nat → Nat) (pop : List Nat)
    (st : EvoState γ) : Except Err (List Nat × EvoState γ) :=
  match darwin S C o pop st with
  | .error e => .error e
  | .ok (pop1, st1) =>
    match sortByFitness S st1.heap pop1 with
    | .error e => .error e
    | .ok pop2 => .ok (pop2, st1)

/-- The while loop of BasicEvolution.run, with fuel = max_runs + 1 minus the
current iteration. The stored argument is the fitness_sum variable. When the
stabilizer fires the source logs iteration - 1 but breaks out of the loop
with the iteration variable unchanged, so the returned count is the current
iteration. -/
def runLoop (S : Candidate γ) (C : Config) (o : Nat → Nat) (goal : ℚ) (stab : Bool) :
    Nat → Nat → ℚ → List Nat → EvoState γ → Except Err (Nat × List Nat × EvoState γ)
  | 0, it, _, pop, st => .ok (it, pop, st)
  | fuel+1, it, stored, pop, st =>
    match generation S C o pop st with
    | .error e => .error e
    | .ok (pop2, st1) =>
      match headFitness S st1.heap pop2 with
      | .error e => .error e
      | .ok f0 =>
        if f0 = goal then .ok (it, pop2, st1)
        else if stab then
          match sumFitness S st1.heap pop2 with
          | .error e => .error e
          | .ok s =>
            if s = stored then .ok (it, pop2, st1)
            else runLoop S C o goal stab fuel (it+1) s pop2 st1
        else runLoop S C o goal stab fuel (it+1) stored pop2 st1

/-- The outcome of BasicEvolution.run: the returned pair (iterations, final
population) plus the final content of the caller supplied list object, which
the initial in place sort reordered and nothing rebinds afterwards. -/
structure RunResult (γ : Type) where
  iterations : Nat
  population : List Nat
  callerList : List Nat
  state : EvoState γ
deriving DecidableEq

/-- BasicEvolution.run: sort the argument list in place, then iterate the
generation step while iteration <= max_runs, with the goal check and the
optional stabilizer check after each generation. -/
def run (S : Candidate γ) (C : Config) (o : Nat → Nat) (pop : List Nat)
    (max_runs : Nat) (goal : ℚ) (stab : Bool) (st : EvoState γ) :
    Except Err (RunResult γ) :=
  match sortByFitness S st.heap pop with
  | .error e => .error e
  | .ok sorted =>
    match runLoop S C o goal stab (max_runs + 1) 0 0 sorted st with
    | .error e => .error e
    | .ok (it, final, st1) => .ok ⟨it, final, sorted, st1⟩

/-- The value of the fitness_sum variable of BasicEvolution.run at the start
of iteration j, given the per generation sums: the zero sentinel before any
comparison, then the sum of the previous generation while the stabilizer is
on (off, the variable is never updated). -/
def storedQ (stab : Bool) (sums : Nat → ℚ) (j : Nat) : ℚ :=
  if j = 0 then 0 else if stab then sums j else 0


deriving instance DecidableEq for Except

/-- A concrete Candidate variant on rational payloads: fitness is the payload
itself, mutate is the identity, and crossover combines the parent payloads
injectively (10 a + b), so a child payload identifies its parents. -/
def pairSpecies : Candidate ℚ := ⟨fun g => some g, fun g => some g, fun a b => some (10 * a + b)⟩

/-- A concrete variant whose mutate capability is missing. -/
def noMutSpecies : Candidate ℚ := ⟨fun g => some g, fun _ => none, fun a b => some (a + b)⟩

/-- A concrete variant whose crossover capability is missing. -/
def noCrossSpecies : Candidate ℚ := ⟨fun g => some g, fun g => some g, fun _ _ => none⟩

/-- A concrete variant whose fitness capability is missing. -/
def noFitSpecies : Candidate ℚ := ⟨fun _ => none, fun g => some g, fun a b => some (a + b)⟩

/-- Keep the whole population, no diversity, no mutation, stable size. -/
def cut1Config : Config := ⟨1, 0, 0, 1⟩

/-- Keep the whole population and schedule one mutation per retained member. -/
def mut1Config : Config := ⟨1, 0, 1, 1⟩

/-- Keep the top half, forcing breeding to refill the other half. -/
def halfConfig : Config := ⟨1/2, 0, 0, 1⟩

/-- One fifth elite with a large diversity fraction. -/
def divConfig : Config := ⟨2/10, 1/2, 0, 1⟩

/-- No elite, full diversity retention: the new population before breeding is
strictly smaller than the original, exposing the parent index range. -/
def c1cexConfig : Config := ⟨0, 1, 0, 1⟩

/-! ### Basic properties of the random draws and the three loops -/

lemma randint_neg {γ} (o : Nat → Nat) (st : EvoState γ) (hi : Int) (h : hi < 0) :
    randint o st hi = .error .valueError := by
  simp [randint, h]

lemma randint_mod {γ} (o : Nat → Nat) (st : EvoState γ) (m : Nat) (hm : 0 < m) :
    randint o st ((m : Int) - 1) = .ok (o st.ctr % m, { st with ctr := st.ctr + 1 }) := by
  have h1 : ¬ ((m : Int) - 1 < 0) := by omega
  have h2 : ((m : Int) - 1).toNat + 1 = m := by omega
  unfold randint
  rw [if_neg h1, h2]

lemma diversityLoop_ok {γ} (o : Nat → Nat) (dp : List Nat) :
    ∀ (cnt : Nat) (np : List Nat) (st st1 : EvoState γ) (np1 : List Nat),
      diversityLoop o dp np st cnt = .ok (np1, st1) →
      st1.heap = st.heap ∧ st1.calls = st.calls ∧ st1.ctr = st.ctr + cnt ∧
      ∃ d : List Nat, np1 = np ++ d ∧ d.length = cnt ∧
        ∀ j, j < cnt → d.get? j = dp.get? (o (st.ctr + j) % dp.length) := by
  intro cnt
  induction cnt with
  | zero =>
    intro np st st1 np1 h
    simp only [diversityLoop, Except.ok.injEq, Prod.mk.injEq] at h
    obtain ⟨h1, h2⟩ := h
    subst h1; subst h2
    exact ⟨rfl, rfl, by omega, [], by simp, rfl, fun j hj => absurd hj (Nat.not_lt_zero j)⟩
  | succ n ih =>
    intro np st st1 np1 h
    simp only [diversityLoop] at h
    split at h
    · simp at h
    · rename_i i stx heq
      rcases Nat.eq_zero_or_pos dp.length with hz | hp
      · rw [randint_neg o st _ (by omega)] at heq
        simp at heq
      · rw [randint_mod o st dp.length hp] at heq
        simp only [Except.ok.injEq, Prod.mk.injEq] at heq
        obtain ⟨hi, hst⟩ := heq
        subst hi; subst hst
        split at h
        · simp at h
        · rename_i c heq2
          obtain ⟨e1, e2, e3, d, hd1, hd2, hd3⟩ := ih (np ++ [c]) _ st1 np1 h
          refine ⟨by simpa using e1, by simpa using e2, by simp at e3; omega,
            c :: d, by simpa using hd1, by simpa using hd2, ?_⟩
          intro j hj
          cases j with
          | zero => simpa using heq2.symm
          | succ j' =>
            have harg := hd3 j' (by omega)
            simp only at harg
            have hx : st.ctr + 1 + j' = st.ctr + (j' + 1) := by omega
            rw [hx] at harg
            simpa using harg

lemma mutateLoop_ok {γ} (S : Candidate γ) (o : Nat → Nat) (np : List Nat) :
    ∀ (cnt : Nat) (st st1 : EvoState γ), mutateLoop S o np st cnt = .ok st1 →
      st1.calls = st.calls ∧ st1.heap.length = st.heap.length ∧ st1.ctr = st.ctr + cnt := by
  intro cnt
  induction cnt with
  | zero =>
    intro st st1 h
    simp only [mutateLoop, Except.ok.injEq] at h
    subst h
    exact ⟨rfl, rfl, by omega⟩
  | succ n ih =>
    intro st st1 h
    simp only [mutateLoop] at h
    split at h
    · simp at h
    · rename_i i stx heq
      rcases Nat.eq_zero_or_pos np.length with hz | hp
      · rw [randint_neg o st _ (by omega)] at heq
        simp at heq
      · rw [randint_mod o st np.length hp] at heq
        simp only [Except.ok.injEq, Prod.mk.injEq] at heq
        obtain ⟨hi, hst⟩ := heq
        subst hi; subst hst
        split at h
        · simp at h
        · rename_i c heq2
          split at h
          · simp at h
          · rename_i g heq3
            split at h
            · simp at h
            · rename_i g1 heq4
              obtain ⟨e1, e2, e3⟩ := ih _ st1 h
              refine ⟨by simpa using e1, ?_, ?_⟩
              · rw [e2]; simp
              · simp at e3; omega

lemma breedLoop_calls {γ} (S : Candidate γ) (o : Nat → Nat) (pop : List Nat) (lnp : Nat) :
    ∀ (cnt : Nat) (np : List Nat) (st st1 : EvoState γ) (np1 : List Nat),
      breedLoop S o pop lnp np st cnt = .ok (np1, st1) → st1.calls = st.calls := by
  intro cnt
  induction cnt with
  | zero =>
    intro np st st1 np1 h
    simp only [breedLoop, Except.ok.injEq, Prod.mk.injEq] at h
    obtain ⟨h1, h2⟩ := h
    subst h2; rfl
  | succ n ih =>
    intro np st st1 np1 h
    simp only [breedLoop] at h
    split at h
    · simp at h
    · rename_i i1 stx heq
      rcases Nat.eq_zero_or_pos lnp with hz | hp
      · rw [randint_neg o st _ (by omega)] at heq
        simp at heq
      · rw [randint_mod o st lnp hp] at heq
        simp only [Except.ok.injEq, Prod.mk.injEq] at heq
        obtain ⟨hi, hst⟩ := heq
        subst hi; subst hst
        split at h
        · simp at h
        · rename_i c1 heq1
          split at h
          · simp at h
          · rename_i i2 sty heq2
            rw [randint_mod o _ lnp hp] at heq2
            simp only [Except.ok.injEq, Prod.mk.injEq] at heq2
            obtain ⟨hi2, hst2⟩ := heq2
            subst hi2; subst hst2
            split at h
            · simp at h
            · rename_i c2 heq3
              split at h
              · rename_i g1 g2 heq4 heq5
                split at h
                · simp at h
                · rename_i g heq6
                  have := ih _ _ st1 np1 h
                  simpa using this
              · simp at h

lemma breedLoop_ok {γ} (S : Candidate γ) (o : Nat → Nat) (pop : List Nat) (lnp : Nat) :
    ∀ (cnt : Nat) (np : List Nat) (st st1 : EvoState γ) (np1 : List Nat),
      (∀ c ∈ pop, c < st.heap.length) →
      breedLoop S o pop lnp np st cnt = .ok (np1, st1) →
      (∃ ext, st1.heap = st.heap ++ ext) ∧
      ∃ kids : List Nat, np1 = np ++ kids ∧ kids.length = cnt ∧
        ∀ k ∈ kids, ∃ i1 i2 c1 c2 g1 g2 g,
          i1 < lnp ∧ i2 < lnp ∧
          pop.get? i1 = some c1 ∧ pop.get? i2 = some c2 ∧
          st1.heap.get? c1 = some g1 ∧ st1.heap.get? c2 = some g2 ∧
          S.crossover g1 g2 = some g ∧ st1.heap.get? k = some g := by
  intro cnt
  induction cnt with
  | zero =>
    intro np st st1 np1 hvalid h
    simp only [breedLoop, Except.ok.injEq, Prod.mk.injEq] at h
    obtain ⟨h1, h2⟩ := h
    subst h1; subst h2
    exact ⟨⟨[], by simp⟩, [], by simp, rfl, by simp⟩
  | succ n ih =>
    intro np st st1 np1 hvalid h
    simp only [breedLoop] at h
    split at h
    · simp at h
    · rename_i i1 stx heq
      rcases Nat.eq_zero_or_pos lnp with hz | hp
      · rw [randint_neg o st _ (by omega)] at heq
        simp at heq
      · rw [randint_mod o st lnp hp] at heq
        simp only [Except.ok.injEq, Prod.mk.injEq] at heq
        obtain ⟨hi, hst⟩ := heq
        subst hi; subst hst
        split at h
        · simp at h
        · rename_i c1 heq1
          split at h
          · simp at h
          · rename_i i2 sty heq2
            rw [randint_mod o _ lnp hp] at heq2
            simp only [Except.ok.injEq, Prod.mk.injEq] at heq2
            obtain ⟨hi2, hst2⟩ := heq2
            subst hi2; subst hst2
            split at h
            · simp at h
            · rename_i c2 heq3
              split at h
              · rename_i g1 g2 heq4 heq5
                split at h
                · simp at h
                · rename_i g heq6
                  simp only at heq4 heq5 h
                  have hc1mem : c1 ∈ pop := List.get?_mem heq1
                  have hc2mem : c2 ∈ pop := List.get?_mem heq3
                  have hc1lt : c1 < st.heap.length := hvalid c1 hc1mem
                  have hc2lt : c2 < st.heap.length := hvalid c2 hc2mem
                  have hvalid2 : ∀ c ∈ pop, c < (st.heap ++ [g]).length := by
                    intro c hc
                    have := hvalid c hc
                    simp only [List.length_append, List.length_cons]
                    omega
                  obtain ⟨⟨ext, hext⟩, kids, hk1, hk2, hk3⟩ :=
                    ih _ ({ heap := st.heap ++ [g], ctr := st.ctr + 1 + 1, calls := st.calls } :
                      EvoState γ) st1 np1 hvalid2 h
                  simp only at hext
                  refine ⟨⟨g :: ext, by rw [hext]; simp⟩,
                    st.heap.length :: kids, by simpa [List.append_assoc] using hk1,
                    by simpa using hk2, ?_⟩
                  intro k hk
                  rcases List.mem_cons.mp hk with hk0 | hkrest
                  · subst hk0
                    refine ⟨o st.ctr % lnp, o (st.ctr + 1) % lnp, c1, c2, g1, g2, g,
                      Nat.mod_lt _ hp, Nat.mod_lt _ hp, heq1, heq3, ?_, ?_, heq6, ?_⟩
                    · rw [hext, List.get?_append (by simp; omega)]
                      rw [List.get?_append hc1lt]
                      exact heq4
                    · rw [hext, List.get?_append (by simp; omega)]
                      rw [List.get?_append hc2lt]
                      exact heq5
                    · rw [hext, List.append_assoc,
                        List.get?_append_right (Nat.le_refl _)]
                      simp
                  · exact hk3 k hkrest
              · simp at h

/-! ### Structure of one darwin step -/

lemma darwin_calls {γ} (S : Candidate γ) (C : Config) (o : Nat → Nat) (pop : List Nat)
    (st st1 : EvoState γ) (np : List Nat) (h : darwin S C o pop st = .ok (np, st1)) :
    st1.calls = st.calls + 1 := by
  simp only [darwin] at h
  split at h
  · simp at h
  · rename_i np1 stA heqD
    obtain ⟨e1, e2, e3, d, hd1, hd2, hd3⟩ := diversityLoop_ok o _ _ _ _ stA np1 heqD
    split at h
    · simp at h
    · rename_i stB heqM
      obtain ⟨m1, m2, m3⟩ := mutateLoop_ok S o np1 _ stA stB heqM
      have hb := breedLoop_calls S o pop np1.length _ np1 stB st1 np h
      simp only at e2
      omega

lemma darwin_ok {γ} (S : Candidate γ) (C : Config) (o : Nat → Nat) (pop : List Nat)
    (st st1 : EvoState γ) (np : List Nat)
    (hvalid : ∀ c ∈ pop, c < st.heap.length)
    (h : darwin S C o pop st = .ok (np, st1)) :
    st1.calls = st.calls + 1 ∧
    ∃ d kids : List Nat,
      np = pop.take (cutOf C pop.length) ++ d ++ kids ∧
      d.length = (pyInt (C.diversity * ((divPool C pop).length : ℚ))).toNat ∧
      (∀ j, j < d.length →
        d.get? j = (divPool C pop).get? (o (st.ctr + j) % (divPool C pop).length)) ∧
      kids.length = ((pyInt ((pop.length : ℚ) * C.growth)) -
        (((pop.take (cutOf C pop.length)).length + d.length : Nat) : Int)).toNat ∧
      ∀ k ∈ kids, ∃ i1 i2 c1 c2 g1 g2 g,
        i1 < (pop.take (cutOf C pop.length)).length + d.length ∧
        i2 < (pop.take (cutOf C pop.length)).length + d.length ∧
        pop.get? i1 = some c1 ∧ pop.get? i2 = some c2 ∧
        st1.heap.get? c1 = some g1 ∧ st1.heap.get? c2 = some g2 ∧
        S.crossover g1 g2 = some g ∧ st1.heap.get? k = some g := by
  refine ⟨darwin_calls S C o pop st st1 np h, ?_⟩
  simp only [darwin] at h
  split at h
  · simp at h
  · rename_i np1 stA heqD
    obtain ⟨e1, e2, e3, d, hd1, hd2, hd3⟩ := diversityLoop_ok o _ _ _ _ stA np1 heqD
    split at h
    · simp at h
    · rename_i stB heqM
      obtain ⟨m1, m2, m3⟩ := mutateLoop_ok S o np1 _ stA stB heqM
      simp only at e1 e3
      have hvalidB : ∀ c ∈ pop, c < stB.heap.length := by
        intro c hc
        rw [m2, e1]
        exact hvalid c hc
      obtain ⟨⟨ext, hext⟩, kids, hk1, hk2, hk3⟩ :=
        breedLoop_ok S o pop np1.length _ np1 stB st1 np hvalidB h
      have hlen : np1.length = (pop.take (cutOf C pop.length)).length + d.length := by
        rw [hd1, List.length_append]
      refine ⟨d, kids, ?_, hd2, ?_, ?_, ?_⟩
      · rw [hk1, hd1, List.append_assoc]
      · intro j hj
        have := hd3 j (by omega)
        simpa using this
      · rw [hk2, hlen]
      · intro k hk
        obtain ⟨i1, i2, c1, c2, g1, g2, g, hi1, hi2, hp1, hp2, hg1, hg2, hx, hgk⟩ :=
          hk3 k hk
        exact ⟨i1, i2, c1, c2, g1, g2, g, hlen ▸ hi1, hlen ▸ hi2,
          hp1, hp2, hg1, hg2, hx, hgk⟩

lemma generation_calls {γ} (S : Candidate γ) (C : Config) (o : Nat → Nat) (pop : List Nat)
    (st st1 : EvoState γ) (pop2 : List Nat)
    (h : generation S C o pop st = .ok (pop2, st1)) : st1.calls = st.calls + 1 := by
  simp only [generation] at h
  split at h
  · simp at h
  · rename_i pop1 stA heqD
    split at h
    · simp at h
    · rename_i p2 heqS
      simp only [Except.ok.injEq, Prod.mk.injEq] at h
      obtain ⟨h1, h2⟩ := h
      subst h2
      exact darwin_calls S C o pop st _ _ heqD

/-! ### Properties of the stable fitness sort and the key pass -/

lemma insertK_perm (x : Nat × ℚ) (l : List (Nat × ℚ)) : (insertK x l).Perm (x :: l) := by
  induction l with
  | nil => simp [insertK]
  | cons y ys ih =>
    by_cases hxy : x.2 ≤ y.2
    · simp [insertK, hxy]
    · simp only [insertK, if_neg hxy]
      exact ((ih.cons y).trans (List.Perm.swap x y ys))

lemma sortK_perm (l : List (Nat × ℚ)) : (sortK l).Perm l := by
  induction l with
  | nil => simp [sortK]
  | cons x xs ih =>
    exact (insertK_perm x (sortK xs)).trans (ih.cons x)

lemma mem_insertK {z x : Nat × ℚ} {l : List (Nat × ℚ)} (h : z ∈ insertK x l) :
    z = x ∨ z ∈ l := by
  have := (insertK_perm x l).mem_iff.mp h
  simpa using this

lemma insertK_pairwise (x : Nat × ℚ) (l : List (Nat × ℚ))
    (h : List.Pairwise (fun a b : Nat × ℚ => a.2 ≤ b.2) l) :
    List.Pairwise (fun a b : Nat × ℚ => a.2 ≤ b.2) (insertK x l) := by
  induction l with
  | nil => simp [insertK]
  | cons y ys ih =>
    obtain ⟨hy, hys⟩ := List.pairwise_cons.mp h
    by_cases hxy : x.2 ≤ y.2
    · simp only [insertK, if_pos hxy]
      refine List.pairwise_cons.mpr ⟨?_, h⟩
      intro z hz
      rcases List.mem_cons.mp hz with hz0 | hzs
      · subst hz0; exact hxy
      · exact le_trans hxy (hy z hzs)
    · simp only [insertK, if_neg hxy]
      refine List.pairwise_cons.mpr ⟨?_, ih hys⟩
      intro z hz
      rcases mem_insertK hz with hz0 | hzs
      · subst hz0; exact le_of_lt (lt_of_not_le hxy)
      · exact hy z hzs

lemma sortK_pairwise (l : List (Nat × ℚ)) :
    List.Pairwise (fun a b : Nat × ℚ => a.2 ≤ b.2) (sortK l) := by
  induction l with
  | nil => simp [sortK]
  | cons x xs ih => exact insertK_pairwise x (sortK xs) ih

lemma keyed_fst {γ} (S : Candidate γ) (heap : List γ) :
    ∀ (pop : List Nat) (ks : List (Nat × ℚ)), keyed S heap pop = .ok ks →
      ks.map Prod.fst = pop := by
  intro pop
  induction pop with
  | nil =>
    intro ks h
    simp only [keyed, Except.ok.injEq] at h
    subst h; rfl
  | cons c cs ih =>
    intro ks h
    simp only [keyed] at h
    split at h
    · simp at h
    · rename_i q heq
      split at h
      · simp at h
      · rename_i rest heq2
        simp only [Except.ok.injEq] at h
        subst h
        simp [ih rest heq2]

lemma keyed_notImplemented {γ} (S : Candidate γ) (heap : List γ) :
    ∀ (pop : List Nat),
      (∀ c ∈ pop, ∃ g, heap.get? c = some g) →
      (∃ c ∈ pop, ∃ g, heap.get? c = some g ∧ S.fitness g = none) →
      keyed S heap pop = .error .notImplemented := by
  intro pop
  induction pop with
  | nil =>
    intro _ hmiss
    obtain ⟨c, hc, _⟩ := hmiss
    exact absurd hc (List.not_mem_nil c)
  | cons c cs ih =>
    intro hvalid hmiss
    obtain ⟨g, hg⟩ := hvalid c (List.mem_cons_self c cs)
    have hg2 : heap[c]? = some g := by simpa using hg
    cases hfit : S.fitness g with
    | none =>
      simp [keyed, fitnessOf, hg2, hfit]
    | some q =>
      have hmiss2 : ∃ c2 ∈ cs, ∃ g2, heap.get? c2 = some g2 ∧ S.fitness g2 = none := by
        obtain ⟨c2, hc2, g2, hgm, hfit2⟩ := hmiss
        rcases List.mem_cons.mp hc2 with hc20 | hc2s
        · subst hc20
          rw [hg] at hgm
          injection hgm with hgm
          subst hgm
          rw [hfit] at hfit2
          exact absurd hfit2 (by simp)
        · exact ⟨c2, hc2s, g2, hgm, hfit2⟩
      have hrec := ih (fun c2 hc2 => hvalid c2 (List.mem_cons_of_mem c hc2)) hmiss2
      simp [keyed, fitnessOf, hg2, hfit, hrec]

/-! ### Behaviour of the run loop -/

lemma storedQ_false (sums : Nat → ℚ) (j : Nat) : storedQ false sums j = 0 := by
  simp [storedQ]

lemma storedQ_succ_true (sums : Nat → ℚ) (j : Nat) : storedQ true sums (j+1) = sums (j+1) := by
  simp [storedQ]

lemma runLoop_advance {γ} (S : Candidate γ) (C : Config) (o : Nat → Nat) (goal : ℚ)
    (stab : Bool) (pops : Nat → List Nat) (sts : Nat → EvoState γ) (fs sums : Nat → ℚ) :
    ∀ (k : Nat),
      (∀ i, i < k → generation S C o (pops i) (sts i) = .ok (pops (i+1), sts (i+1))) →
      (∀ i, i < k → headFitness S (sts (i+1)).heap (pops (i+1)) = .ok (fs (i+1))) →
      (∀ i, i < k → fs (i+1) ≠ goal) →
      (∀ i, i < k → stab = true →
        sumFitness S (sts (i+1)).heap (pops (i+1)) = .ok (sums (i+1))) →
      (∀ i, i < k → stab = true → sums (i+1) ≠ storedQ stab sums i) →
      ∀ fuel, k ≤ fuel →
        runLoop S C o goal stab fuel 0 (storedQ stab sums 0) (pops 0) (sts 0) =
        runLoop S C o goal stab (fuel - k) k (storedQ stab sums k) (pops k) (sts k) := by
  intro k
  induction k with
  | zero =>
    intro _ _ _ _ _ fuel _
    rfl
  | succ k ih =>
    intro hstep hf hgoal hsum hns fuel hk
    rw [ih (fun i hi => hstep i (by omega)) (fun i hi => hf i (by omega))
      (fun i hi => hgoal i (by omega)) (fun i hi hs => hsum i (by omega) hs)
      (fun i hi hs => hns i (by omega) hs) fuel (by omega)]
    have hfk : fuel - k = (fuel - (k+1)) + 1 := by omega
    rw [hfk]
    have hgk := hstep k (by omega)
    have hfk2 := hf k (by omega)
    simp only [runLoop, hgk, hfk2]
    rw [if_neg (hgoal k (by omega))]
    cases stab with
    | false =>
      simp only [Bool.false_eq_true, if_false]
      rw [storedQ_false, storedQ_false]
    | true =>
      simp only [if_true]
      rw [hsum k (by omega) rfl]
      simp only
      rw [if_neg (hns k (by omega) rfl)]
      rw [storedQ_succ_true]

lemma runLoop_calls_le {γ} (S : Candidate γ) (C : Config) (o : Nat → Nat) (goal : ℚ)
    (stab : Bool) :
    ∀ (fuel it : Nat) (stored : ℚ) (pop : List Nat) (st : EvoState γ)
      (res : Nat × List Nat × EvoState γ),
      runLoop S C o goal stab fuel it stored pop st = .ok res →
      st.calls ≤ res.2.2.calls := by
  intro fuel
  induction fuel with
  | zero =>
    intro it stored pop st res h
    simp only [runLoop, Except.ok.injEq] at h
    subst h
    exact Nat.le_refl _
  | succ fuel ih =>
    intro it stored pop st res h
    simp only [runLoop] at h
    split at h
    · simp at h
    · rename_i pop2 stA heqG
      have hce := generation_calls S C o pop st stA pop2 heqG
      split at h
      · simp at h
      · rename_i f0 heqF
        split at h
        · simp only [Except.ok.injEq] at h
          subst h
          simp only
          omega
        · split at h
          · split at h
            · simp at h
            · rename_i s heqS
              split at h
              · simp only [Except.ok.injEq] at h
                subst h
                simp only
                omega
              · have := ih _ _ _ stA res h
                omega
          · have := ih _ _ _ stA res h
            omega

lemma runLoop_calls_succ {γ} (S : Candidate γ) (C : Config) (o : Nat → Nat) (goal : ℚ)
    (stab : Bool) (fuel it : Nat) (stored : ℚ) (pop : List Nat) (st : EvoState γ)
    (res : Nat × List Nat × EvoState γ)
    (h : runLoop S C o goal stab (fuel + 1) it stored pop st = .ok res) :
    st.calls + 1 ≤ res.2.2.calls := by
  simp only [runLoop] at h
  split at h
  · simp at h
  · rename_i pop2 stA heqG
    have hce := generation_calls S C o pop st stA pop2 heqG
    split at h
    · simp at h
    · rename_i f0 heqF
      split at h
      · simp only [Except.ok.injEq] at h
        subst h
        simp only
        omega
      · split at h
        · split at h
          · simp at h
          · rename_i s heqS
            split at h
            · simp only [Except.ok.injEq] at h
              subst h
              simp only
              omega
            · have := runLoop_calls_le S C o goal stab fuel _ _ _ stA res h
              omega
        · have := runLoop_calls_le S C o goal stab fuel _ _ _ stA res h
          omega

/-! ### Slice arithmetic under the documented parameter ranges -/

lemma pyInt_nonneg (q : ℚ) (h : 0 ≤ q) : pyInt q = Int.floor q := by
  unfold pyInt
  rw [if_neg (not_lt.mpr h)]

lemma cutOf_eq_floor (C : Config) (n : Nat) (hc0 : 0 ≤ C.cutoff) (hc1 : C.cutoff ≤ 1) :
    cutOf C n = (Int.floor (C.cutoff * (n : ℚ))).toNat := by
  unfold cutOf pyIdx
  have hq : (0:ℚ) ≤ (n:ℚ) * C.cutoff := mul_nonneg (by positivity) hc0
  rw [pyInt_nonneg _ hq]
  have h2 : ¬ (Int.floor ((n:ℚ) * C.cutoff) < 0) := not_lt.mpr (Int.floor_nonneg.mpr hq)
  rw [if_neg h2]
  have h3 : Int.floor ((n:ℚ) * C.cutoff) ≤ (n : Int) := by
    have hle : (n:ℚ) * C.cutoff ≤ (n:ℚ) := by
      calc (n:ℚ) * C.cutoff ≤ (n:ℚ) * 1 := by
            exact mul_le_mul_of_nonneg_left hc1 (by positivity)
        _ = (n:ℚ) := mul_one _
    have := Int.floor_le_floor hle
    simpa using this
  rw [mul_comm (n:ℚ) C.cutoff]
  have h4 : (Int.floor (C.cutoff * (n:ℚ))).toNat ≤ n := by
    rw [mul_comm C.cutoff (n:ℚ)]
    omega
  exact Nat.min_eq_left h4

lemma divPool_eq (C : Config) (pop : List Nat) :
    divPool C pop = (pop.take (pop.length - 1)).drop (cutOf C pop.length) := by
  unfold divPool pyIdx
  rw [if_pos (by norm_num : (-1:Int) < 0)]
  have h : ((-1 : Int) + (pop.length : Int)).toNat = pop.length - 1 := by omega
  rw [h]

/-! ### Claim theorems -/

/-- Claim C6: for every input population, the first floor(cutoff times the
population length) individuals of the input (the elites) are present,
unchanged as objects, at the front of the darwin step output. Stated for the
documented parameter range of cutoff between 0 and 1, for any successful
darwin step on a population of valid candidate references. -/
theorem elite_retention {γ} (S : Candidate γ) (C : Config) (o : Nat → Nat)
    (pop np : List Nat) (st st1 : EvoState γ)
    (hc0 : 0 ≤ C.cutoff) (hc1 : C.cutoff ≤ 1)
    (hvalid : ∀ c ∈ pop, c < st.heap.length)
    (h : darwin S C o pop st = .ok (np, st1)) :
    np.take (Int.floor (C.cutoff * (pop.length : ℚ))).toNat =
      pop.take (Int.floor (C.cutoff * (pop.length : ℚ))).toNat := by
  obtain ⟨_, d, kids, hnp, _, _, _, _⟩ := darwin_ok S C o pop st st1 np hvalid h
  have hcut := cutOf_eq_floor C pop.length hc0 hc1
  have htle : (Int.floor (C.cutoff * (pop.length : ℚ))).toNat ≤ pop.length := by
    rw [← hcut]
    unfold cutOf pyIdx
    split
    · omega
    · omega
  have hlen : (pop.take (cutOf C pop.length)).length =
      (Int.floor (C.cutoff * (pop.length : ℚ))).toNat := by
    rw [hcut, List.length_take]
    omega
  rw [hnp, List.append_assoc, List.take_left' hlen, ← hcut]

/-- Claim C6 witness: the default configuration on a five candidate
population keeps the single elite (floor(0.2 times 5) = 1) at the front of
the darwin output. -/
theorem elite_retention_witness :
    ((0:ℚ) ≤ defaultConfig.cutoff ∧ defaultConfig.cutoff ≤ 1 ∧
      (∀ c ∈ ([0,1,2,3,4] : List Nat), c < ([3,40,50,60,70] : List ℚ).length) ∧
      darwin pairSpecies defaultConfig (fun _ => 0) [0,1,2,3,4] ⟨[3,40,50,60,70],0,0⟩ =
        .ok ([0,5,6,7,8], ⟨[3,40,50,60,70,33,33,33,33],8,1⟩)) ∧
    ([0,5,6,7,8] : List Nat).take
        (Int.floor (defaultConfig.cutoff * (([0,1,2,3,4] : List Nat).length : ℚ))).toNat =
      ([0,1,2,3,4] : List Nat).take
        (Int.floor (defaultConfig.cutoff * (([0,1,2,3,4] : List Nat).length : ℚ))).toNat := by
  refine ⟨⟨?_, ?_, ?_, ?_⟩, ?_⟩
  · with_unfolding_all decide
  · with_unfolding_all decide
  · decide
  · with_unfolding_all decide
  · exact elite_retention pairSpecies defaultConfig (fun _ => 0) [0,1,2,3,4] [0,5,6,7,8]
      ⟨[3,40,50,60,70],0,0⟩ ⟨[3,40,50,60,70,33,33,33,33],8,1⟩
      (by with_unfolding_all decide) (by with_unfolding_all decide) (by decide)
      (by with_unfolding_all decide)

/-- Claim C7: the diversity pool runs from the cutoff boundary up to but
excluding the single worst (last) element of the input; the diversity phase
makes exactly floor(diversity times the pool length) draws, each one an
independent uniform index into the whole pool (the j-th appended element is
the pool entry at the j-th oracle value reduced modulo the pool length), so
every appended element belongs to the pool, and because the draws are with
replacement the same individual object can be appended more than once (shown
by the concrete run in the last conjunct, where candidate 2 is appended three
times). -/
theorem diversity_phase_draws {γ} (S : Candidate γ) (C : Config) (o : Nat → Nat)
    (pop np : List Nat) (st st1 : EvoState γ)
    (hc0 : 0 ≤ C.cutoff) (hc1 : C.cutoff ≤ 1) (hd0 : 0 ≤ C.diversity)
    (hvalid : ∀ c ∈ pop, c < st.heap.length)
    (h : darwin S C o pop st = .ok (np, st1)) :
    (divPool C pop =
       (pop.take (pop.length - 1)).drop (Int.floor (C.cutoff * (pop.length : ℚ))).toNat ∧
     ∃ d rest : List Nat,
       np = (pop.take (Int.floor (C.cutoff * (pop.length : ℚ))).toNat ++ d) ++ rest ∧
       d.length = (Int.floor (C.diversity * ((divPool C pop).length : ℚ))).toNat ∧
       (∀ j, j < d.length →
         d.get? j = (divPool C pop).get? (o (st.ctr + j) % (divPool C pop).length)) ∧
       (∀ x ∈ d, x ∈ divPool C pop)) ∧
    ((darwin pairSpecies divConfig (fun _ => 0) [0,1,2,3,4,5,6,7,8,9]
        ⟨[0,1,2,3,4,5,6,7,8,9],0,0⟩).map Prod.fst =
      .ok [0,1,2,2,2,10,11,12,13,14] ∧
      ¬ ([0,1,2,2,2,10,11,12,13,14] : List Nat).Nodup) := by
  refine ⟨⟨?_, ?_⟩, by with_unfolding_all decide, by decide⟩
  · rw [divPool_eq, cutOf_eq_floor C pop.length hc0 hc1]
  · obtain ⟨_, d, kids, hnp, hd2, hd3, _, _⟩ := darwin_ok S C o pop st st1 np hvalid h
    refine ⟨d, kids, ?_, ?_, ?_, ?_⟩
    · rw [hnp, cutOf_eq_floor C pop.length hc0 hc1]
    · rw [hd2, pyInt_nonneg]
      exact mul_nonneg hd0 (by positivity)
    · exact hd3
    · intro x hx
      obtain ⟨j, hj⟩ := List.mem_iff_get?.mp hx
      have hjlt : j < d.length := by
        by_contra hge
        rw [List.get?_eq_none.mpr (by omega)] at hj
        exact Option.noConfusion hj
      have := hd3 j hjlt
      rw [hj] at this
      exact List.get?_mem this.symm

/-- Claim C7 witness: concrete diversity phase with cutoff 0.2 and diversity
0.5 on a ten candidate population. -/
theorem diversity_phase_draws_witness :
    ((0:ℚ) ≤ divConfig.cutoff ∧ divConfig.cutoff ≤ 1 ∧ (0:ℚ) ≤ divConfig.diversity ∧
      (∀ c ∈ ([0,1,2,3,4,5,6,7,8,9] : List Nat),
        c < ([0,1,2,3,4,5,6,7,8,9] : List ℚ).length) ∧
      darwin pairSpecies divConfig (fun _ => 0) [0,1,2,3,4,5,6,7,8,9]
          ⟨[0,1,2,3,4,5,6,7,8,9],0,0⟩ =
        .ok ([0,1,2,2,2,10,11,12,13,14],
          ⟨[0,1,2,3,4,5,6,7,8,9,0,0,0,0,0],13,1⟩)) ∧
    divPool divConfig [0,1,2,3,4,5,6,7,8,9] =
      (([0,1,2,3,4,5,6,7,8,9] : List Nat).take 9).drop
        (Int.floor (divConfig.cutoff * (10 : ℚ))).toNat := by
  refine ⟨⟨?_, ?_, ?_, ?_, ?_⟩, ?_⟩
  · with_unfolding_all decide
  · with_unfolding_all decide
  · with_unfolding_all decide
  · decide
  · with_unfolding_all decide
  · exact (diversity_phase_draws pairSpecies divConfig (fun _ => 0)
      [0,1,2,3,4,5,6,7,8,9] [0,1,2,2,2,10,11,12,13,14]
      ⟨[0,1,2,3,4,5,6,7,8,9],0,0⟩ ⟨[0,1,2,3,4,5,6,7,8,9,0,0,0,0,0],13,1⟩
      (by with_unfolding_all decide) (by with_unfolding_all decide)
      (by with_unfolding_all decide) (by decide)
      (by with_unfolding_all decide)).1.1

lemma darwin_c1_const (o : Nat → Nat) :
    darwin pairSpecies c1cexConfig o [0,1] ⟨[3,70],0,0⟩ =
      .ok ([0,2], ⟨[3,70,33],3,1⟩) := by
  have h1 : cutOf ⟨0,1,0,1⟩ 2 = 0 := by with_unfolding_all decide
  have h2 : divPool ⟨0,1,0,1⟩ [0,1] = [0] := by with_unfolding_all decide
  norm_num [darwin, diversityLoop, mutateLoop, breedLoop, randint, h1, h2,
    c1cexConfig, pairSpecies, pyInt, Nat.mod_one, Int.floor_one, Int.floor_zero]

/-- Claim C1 counterexample: with no elite and full diversity retention on a
two candidate population (payloads 3 and 70, sorted), the breeding phase can
never select the last individual (payload 70) as a parent, whatever the
random stream does: every child is always the self crossover of candidate 0
(payload 10 * 3 + 3 = 33), because the parent index is drawn from the range
below len_new_pop = 1 rather than uniformly from the whole original
population of size 2. -/
theorem breeding_not_uniform_cex :
    ¬ ∃ (o : Nat → Nat) (r : List Nat × EvoState ℚ),
        darwin pairSpecies c1cexConfig o [0,1] ⟨[3,70],0,0⟩ = .ok r ∧
        r.2.heap.drop 2 ≠ [33] := by
  rintro ⟨o, r, hr, hne⟩
  rw [darwin_c1_const o] at hr
  injection hr with hr
  subst hr
  exact hne rfl

/-- Claim C1 amended: each of the two parents of every bred child is drawn
with replacement from the first len_new_pop entries of the original input
population, where len_new_pop = elite count + diversity draw count is the
snapshot length of the new population before breeding - not from the entire
original population. Every child in the darwin output is the crossover of
two candidates found at such indices (their payloads read from the final
heap, which the breeding phase only extends). The last conjunct shows
self crossover happening: with len_new_pop = 1 the child payload is
10 * 3 + 3, the crossover of candidate 0 with itself. -/
theorem breeding_parent_pool {γ} (S : Candidate γ) (C : Config) (o : Nat → Nat)
    (pop np : List Nat) (st st1 : EvoState γ)
    (hvalid : ∀ c ∈ pop, c < st.heap.length)
    (h : darwin S C o pop st = .ok (np, st1)) :
    (∃ pre kids : List Nat,
       np = pre ++ kids ∧
       pre.length = (pop.take (cutOf C pop.length)).length +
         (pyInt (C.diversity * ((divPool C pop).length : ℚ))).toNat ∧
       ∀ k ∈ kids, ∃ i1 i2 c1 c2 g1 g2 g,
         i1 < pre.length ∧ i2 < pre.length ∧
         pop.get? i1 = some c1 ∧ pop.get? i2 = some c2 ∧
         st1.heap.get? c1 = some g1 ∧ st1.heap.get? c2 = some g2 ∧
         S.crossover g1 g2 = some g ∧ st1.heap.get? k = some g) ∧
    (darwin pairSpecies c1cexConfig (fun _ => 0) [0,1] ⟨[3,70],0,0⟩).map
        (fun x => x.2.heap.get? 2) = .ok (some 33) := by
  refine ⟨?_, by rw [darwin_c1_const (fun _ => 0)]; rfl⟩
  obtain ⟨_, d, kids, hnp, hd2, _, _, hkids⟩ := darwin_ok S C o pop st st1 np hvalid h
  refine ⟨pop.take (cutOf C pop.length) ++ d, kids, ?_, ?_, ?_⟩
  · rw [hnp]
  · rw [List.length_append, hd2]
  · intro k hk
    obtain ⟨i1, i2, c1, c2, g1, g2, g, hi1, hi2, rest⟩ := hkids k hk
    exact ⟨i1, i2, c1, c2, g1, g2, g,
      by rw [List.length_append, hd2]; exact hd2 ▸ hi1,
      by rw [List.length_append, hd2]; exact hd2 ▸ hi2, rest⟩

/-- Claim C1 amended witness: a half cutoff configuration on two candidates
where the single child is bred from the retained prefix. -/
theorem breeding_parent_pool_witness :
    ((∀ c ∈ ([0,1] : List Nat), c < ([1,2] : List ℚ).length) ∧
      darwin pairSpecies halfConfig (fun _ => 0) [0,1] ⟨[1,2],0,0⟩ =
        .ok ([0,2], ⟨[1,2,11],2,1⟩)) ∧
    (darwin pairSpecies c1cexConfig (fun _ => 0) [0,1] ⟨[3,70],0,0⟩).map
        (fun x => x.2.heap.get? 2) = .ok (some 33) := by
  refine ⟨⟨by decide, by with_unfolding_all decide⟩, ?_⟩
  exact (breeding_parent_pool pairSpecies halfConfig (fun _ => 0) [0,1] [0,2]
    ⟨[1,2],0,0⟩ ⟨[1,2,11],2,1⟩ (by decide) (by with_unfolding_all decide)).2

/-- Claim C2 (code bug evidence): run raises instead of degrading gracefully
on degenerate populations under the default configuration. On an empty
population the first generation returns an empty list and population[0]
raises IndexError; on a single candidate population the elite slice and the
diversity pool are both empty, so breeding reaches
random.randint(0, len_new_pop - 1) with len_new_pop = 0, which raises
ValueError - the draw over an empty range is attempted, not skipped. -/
theorem run_degenerate_population_raises :
    run pairSpecies defaultConfig (fun _ => 0) [] 3 0 false ⟨[],0,0⟩ =
      .error .indexError ∧
    run pairSpecies defaultConfig (fun _ => 0) [0] 3 0 false ⟨[7],0,0⟩ =
      .error .valueError := by
  constructor
  · with_unfolding_all decide
  · with_unfolding_all decide

/-- Claim C3 counterexample: a run whose population keeps the whole
generation unchanged (cutoff 1, growth 1, fitness payloads 1 and 2, goal 0).
The fitness sum is 3 in every generation, so with the stabilizer on the
first match of two consecutive sums happens at generation k = 1 (generation
0 compares 3 against the 0 sentinel and continues; the goal check never
fires, as the stabilizer-off run exhausting all max_runs + 1 = 4 iterations
shows). The call returns iteration count 1 = k, not k - 1 = 0 as the claim
states; only the log message mentions k - 1. -/
theorem stabilizer_returns_current_iteration :
    (run pairSpecies cut1Config (fun _ => 0) [0,1] 3 0 true ⟨[1,2],0,0⟩).map
        RunResult.iterations = .ok 1 ∧
    (run pairSpecies cut1Config (fun _ => 0) [0,1] 3 0 false ⟨[1,2],0,0⟩).map
        RunResult.iterations = .ok 4 ∧
    ¬ (run pairSpecies cut1Config (fun _ => 0) [0,1] 3 0 true ⟨[1,2],0,0⟩).map
        RunResult.iterations = .ok 0 := by
  refine ⟨?_, ?_, ?_⟩
  · with_unfolding_all decide
  · with_unfolding_all decide
  · with_unfolding_all decide

/-- Claim C3 amended: with the stabilizer on, if the first generation k at
which the population fitness sum equals the stored previous sum is reached
(the stored sum being the 0 sentinel at k = 0 and the previous generation
sum afterwards), with the goal check never firing at or before k and
k within max_runs, then run stops at generation k and returns iteration
count k itself (the log message alone reports k - 1). -/
theorem stabilizer_stop_iteration_count {γ} (S : Candidate γ) (C : Config) (o : Nat → Nat)
    (pop0 : List Nat) (st0 : EvoState γ) (goal : ℚ) (max_runs k : Nat)
    (pops : Nat → List Nat) (sts : Nat → EvoState γ) (fs sums : Nat → ℚ)
    (hk : k ≤ max_runs)
    (h0 : sortByFitness S st0.heap pop0 = .ok (pops 0))
    (hs0 : sts 0 = st0)
    (hstep : ∀ i, i ≤ k → generation S C o (pops i) (sts i) = .ok (pops (i+1), sts (i+1)))
    (hf : ∀ i, i ≤ k → headFitness S (sts (i+1)).heap (pops (i+1)) = .ok (fs (i+1)))
    (hgoal : ∀ i, i ≤ k → fs (i+1) ≠ goal)
    (hsum : ∀ i, i ≤ k → sumFitness S (sts (i+1)).heap (pops (i+1)) = .ok (sums (i+1)))
    (hnofire : ∀ i, i < k → sums (i+1) ≠ storedQ true sums i)
    (hfire : sums (k+1) = storedQ true sums k) :
    run S C o pop0 max_runs goal true st0 = .ok ⟨k, pops (k+1), pops 0, sts (k+1)⟩ := by
  have hadv := runLoop_advance S C o goal true pops sts fs sums k
    (fun i hi => hstep i (by omega)) (fun i hi => hf i (by omega))
    (fun i hi => hgoal i (by omega)) (fun i hi _ => hsum i (by omega))
    (fun i hi _ => hnofire i hi) (max_runs + 1) (by omega)
  have hst0 : storedQ true sums 0 = 0 := by simp [storedQ]
  rw [hst0] at hadv
  simp only [run, h0]
  rw [← hs0, hadv]
  have hfuel : max_runs + 1 - k = (max_runs - k) + 1 := by omega
  rw [hfuel]
  simp only [runLoop, hstep k (le_refl k), hf k (le_refl k)]
  rw [if_neg (hgoal k (le_refl k))]
  simp only [if_true]
  rw [hsum k (le_refl k)]
  simp only
  rw [if_pos hfire]

/-- Claim C3 amended witness: the k = 0 instance, where the sentinel 0
matches a zero fitness sum after the first generation. -/
theorem stabilizer_stop_iteration_count_witness :
    (sortByFitness pairSpecies ([-1,1] : List ℚ) [0,1] = .ok [0,1] ∧
      generation pairSpecies cut1Config (fun _ => 0) [0,1] ⟨[-1,1],0,0⟩ =
        .ok ([0,1], ⟨[-1,1],0,1⟩) ∧
      sumFitness pairSpecies ([-1,1] : List ℚ) [0,1] = .ok 0 ∧
      headFitness pairSpecies ([-1,1] : List ℚ) [0,1] = .ok (-1) ∧ ((-1:ℚ) ≠ 0)) ∧
    run pairSpecies cut1Config (fun _ => 0) [0,1] 5 0 true ⟨[-1,1],0,0⟩ =
      .ok ⟨0, [0,1], [0,1], ⟨[-1,1],0,1⟩⟩ := by
  refine ⟨⟨?_, ?_, ?_, ?_, ?_⟩, ?_⟩
  · with_unfolding_all decide
  · with_unfolding_all decide
  · with_unfolding_all decide
  · with_unfolding_all decide
  · with_unfolding_all decide
  · exact stabilizer_stop_iteration_count pairSpecies cut1Config (fun _ => 0) [0,1]
      ⟨[-1,1],0,0⟩ 0 5 0
      (fun _ => [0,1]) (fun j => ⟨[-1,1],0,j⟩) (fun _ => -1) (fun _ => 0)
      (by omega) (by with_unfolding_all decide) rfl
      (fun i hi => by
        have hz : i = 0 := Nat.le_zero.mp hi
        subst hz
        with_unfolding_all decide)
      (fun i hi => by
        have hz : i = 0 := Nat.le_zero.mp hi
        subst hz
        with_unfolding_all decide)
      (fun i hi => by
        have hz : i = 0 := Nat.le_zero.mp hi
        subst hz
        with_unfolding_all decide)
      (fun i hi => by
        have hz : i = 0 := Nat.le_zero.mp hi
        subst hz
        with_unfolding_all decide)
      (fun i hi => absurd hi (Nat.not_lt_zero i))
      (by simp [storedQ])

/-- Claim C4: with the stabilizer on, the stored previous sum starts as the
0 sentinel, so any run whose first generation produces a population with
fitness sum exactly 0 while the best fitness differs from the goal stops
immediately and returns iteration count 0 - a false positive stabilization. -/
theorem stabilizer_zero_sentinel_false_positive {γ} (S : Candidate γ) (C : Config)
    (o : Nat → Nat) (pop0 sp p1 : List Nat) (st0 s1 : EvoState γ)
    (max_runs : Nat) (goal f : ℚ)
    (hsort : sortByFitness S st0.heap pop0 = .ok sp)
    (hgen : generation S C o sp st0 = .ok (p1, s1))
    (hhead : headFitness S s1.heap p1 = .ok f)
    (hf : f ≠ goal)
    (hsum : sumFitness S s1.heap p1 = .ok 0) :
    run S C o pop0 max_runs goal true st0 = .ok ⟨0, p1, sp, s1⟩ := by
  simp only [run, hsort]
  simp only [runLoop, hgen, hhead]
  rw [if_neg hf]
  simp only [if_true]
  rw [hsum]
  simp

/-- Claim C4 witness: payloads -1 and 1 sum to exactly 0 after the first
generation while the best fitness -1 differs from the goal 0, so the run
stops at iteration 0. -/
theorem stabilizer_zero_sentinel_false_positive_witness :
    (sortByFitness pairSpecies ([-1,1] : List ℚ) [0,1] = .ok [0,1] ∧
      generation pairSpecies cut1Config (fun _ => 0) [0,1] ⟨[-1,1],0,0⟩ =
        .ok ([0,1], ⟨[-1,1],0,1⟩) ∧
      headFitness pairSpecies ([-1,1] : List ℚ) [0,1] = .ok (-1) ∧ ((-1:ℚ) ≠ 0) ∧
      sumFitness pairSpecies ([-1,1] : List ℚ) [0,1] = .ok 0) ∧
    run pairSpecies cut1Config (fun _ => 0) [0,1] 7 0 true ⟨[-1,1],0,0⟩ =
      .ok ⟨0, [0,1], [0,1], ⟨[-1,1],0,1⟩⟩ := by
  refine ⟨⟨?_, ?_, ?_, ?_, ?_⟩, ?_⟩
  · with_unfolding_all decide
  · with_unfolding_all decide
  · with_unfolding_all decide
  · with_unfolding_all decide
  · with_unfolding_all decide
  · exact stabilizer_zero_sentinel_false_positive pairSpecies cut1Config (fun _ => 0)
      [0,1] [0,1] [0,1] ⟨[-1,1],0,0⟩ ⟨[-1,1],0,1⟩ 7 0 (-1)
      (by with_unfolding_all decide) (by with_unfolding_all decide)
      (by with_unfolding_all decide) (by with_unfolding_all decide)
      (by with_unfolding_all decide)

/-- Claim C5: on a run where every generation succeeds, the goal check never
fires (the best fitness after each generation differs from the goal) and,
when the stabilizer is on, no two consecutive stored sums ever match, the
loop runs its full course: run performs exactly N + 1 darwin generation
steps (the generation counter rises by N + 1) and returns iteration count
N + 1. -/
theorem run_exhaustion_count {γ} (S : Candidate γ) (C : Config) (o : Nat → Nat)
    (pop0 : List Nat) (st0 : EvoState γ) (goal : ℚ) (stab : Bool) (N : Nat)
    (pops : Nat → List Nat) (sts : Nat → EvoState γ) (fs sums : Nat → ℚ)
    (hne : pop0 ≠ [])
    (h0 : sortByFitness S st0.heap pop0 = .ok (pops 0))
    (hs0 : sts 0 = st0)
    (hstep : ∀ i, i ≤ N → generation S C o (pops i) (sts i) = .ok (pops (i+1), sts (i+1)))
    (hf : ∀ i, i ≤ N → headFitness S (sts (i+1)).heap (pops (i+1)) = .ok (fs (i+1)))
    (hgoal : ∀ i, i ≤ N → fs (i+1) ≠ goal)
    (hsum : ∀ i, i ≤ N → stab = true →
      sumFitness S (sts (i+1)).heap (pops (i+1)) = .ok (sums (i+1)))
    (hnofire : ∀ i, i ≤ N → stab = true → sums (i+1) ≠ storedQ stab sums i) :
    run S C o pop0 N goal stab st0 = .ok ⟨N+1, pops (N+1), pops 0, sts (N+1)⟩ ∧
    (sts (N+1)).calls = st0.calls + (N+1) := by
  constructor
  · have hadv := runLoop_advance S C o goal stab pops sts fs sums (N+1)
      (fun i hi => hstep i (by omega)) (fun i hi => hf i (by omega))
      (fun i hi => hgoal i (by omega)) (fun i hi hs => hsum i (by omega) hs)
      (fun i hi hs => hnofire i (by omega) hs) (N + 1) (by omega)
    have hst0 : storedQ stab sums 0 = 0 := by simp [storedQ]
    rw [hst0] at hadv
    have hz : N + 1 - (N + 1) = 0 := by omega
    rw [hz] at hadv
    simp only [run, h0]
    rw [← hs0, hadv]
    simp [runLoop]
  · have hc : ∀ j, j ≤ N + 1 → (sts j).calls = st0.calls + j := by
      intro j
      induction j with
      | zero => intro _; rw [hs0]; omega
      | succ j ih =>
        intro hj
        have h1 := generation_calls S C o (pops j) (sts j) (sts (j+1)) (pops (j+1))
          (hstep j (by omega))
        have h2 := ih (by omega)
        omega
    exact hc (N+1) (le_refl _)

/-- Claim C5 witness: the N = 0 instance on a two candidate run that never
reaches the goal 99: one generation step and iteration count 1. -/
theorem run_exhaustion_count_witness :
    (([0,1] : List Nat) ≠ [] ∧
      sortByFitness pairSpecies ([-1,1] : List ℚ) [0,1] = .ok [0,1] ∧
      generation pairSpecies cut1Config (fun _ => 0) [0,1] ⟨[-1,1],0,0⟩ =
        .ok ([0,1], ⟨[-1,1],0,1⟩) ∧
      headFitness pairSpecies ([-1,1] : List ℚ) [0,1] = .ok (-1) ∧ ((-1:ℚ) ≠ 99)) ∧
    (run pairSpecies cut1Config (fun _ => 0) [0,1] 0 99 false ⟨[-1,1],0,0⟩ =
        .ok ⟨1, [0,1], [0,1], ⟨[-1,1],0,1⟩⟩ ∧
      (⟨[-1,1],0,1⟩ : EvoState ℚ).calls = (⟨[-1,1],0,0⟩ : EvoState ℚ).calls + 1) := by
  refine ⟨⟨?_, ?_, ?_, ?_, ?_⟩, ?_⟩
  · decide
  · with_unfolding_all decide
  · with_unfolding_all decide
  · with_unfolding_all decide
  · with_unfolding_all decide
  · exact run_exhaustion_count pairSpecies cut1Config (fun _ => 0) [0,1] ⟨[-1,1],0,0⟩
      99 false 0 (fun _ => [0,1]) (fun j => ⟨[-1,1],0,j⟩) (fun _ => -1) (fun _ => 0)
      (by decide) (by with_unfolding_all decide) rfl
      (fun i hi => by
        have hz : i = 0 := Nat.le_zero.mp hi
        subst hz
        with_unfolding_all decide)
      (fun i hi => by
        have hz : i = 0 := Nat.le_zero.mp hi
        subst hz
        with_unfolding_all decide)
      (fun i hi => by
        have hz : i = 0 := Nat.le_zero.mp hi
        subst hz
        with_unfolding_all decide)
      (fun i hi hs => by exact absurd hs (by decide))
      (fun i hi hs => by exact absurd hs (by decide))

/-- Claim C8: a candidate whose concrete variant does not supply a
capability raises the unimplemented capability error on first invocation,
and the engine does not catch it: it propagates out of run. First conjunct:
for any population of valid references containing a candidate without a
fitness capability, run fails with notImplemented already during the
initial sort. The remaining conjuncts show the same propagation out of run
for a missing mutate capability (reached in the mutation phase of the first
darwin step) and a missing crossover capability (reached in the breeding
phase). -/
theorem unimplemented_capability_propagates {γ} (S : Candidate γ) (C : Config)
    (o : Nat → Nat) (pop : List Nat) (max_runs : Nat) (goal : ℚ) (stab : Bool)
    (st0 : EvoState γ)
    (hvalid : ∀ c ∈ pop, ∃ g, st0.heap.get? c = some g)
    (hmiss : ∃ c ∈ pop, ∃ g, st0.heap.get? c = some g ∧ S.fitness g = none) :
    run S C o pop max_runs goal stab st0 = .error .notImplemented ∧
    run noMutSpecies mut1Config (fun _ => 0) [0,1] 3 99 false ⟨[1,2],0,0⟩ =
      .error .notImplemented ∧
    run noCrossSpecies halfConfig (fun _ => 0) [0,1] 3 99 false ⟨[1,2],0,0⟩ =
      .error .notImplemented := by
  refine ⟨?_, by with_unfolding_all decide, by with_unfolding_all decide⟩
  have hk := keyed_notImplemented S st0.heap pop hvalid hmiss
  simp [run, sortByFitness, hk]

/-- Claim C8 witness: a variant without a fitness capability makes run fail
with the unimplemented capability error. -/
theorem unimplemented_capability_propagates_witness :
    ((∀ c ∈ ([0] : List Nat), ∃ g, ([(7:ℚ)]).get? c = some g) ∧
      (∃ c ∈ ([0] : List Nat), ∃ g, ([(7:ℚ)]).get? c = some g ∧
        noFitSpecies.fitness g = none)) ∧
    run noFitSpecies defaultConfig (fun _ => 0) [0] 3 0 false ⟨[7],0,0⟩ =
      .error .notImplemented := by
  refine ⟨⟨?_, ⟨0, by decide, 7, rfl, rfl⟩⟩, ?_⟩
  · intro c hc
    have hz : c = 0 := by simpa using hc
    subst hz
    exact ⟨7, rfl⟩
  · exact (unimplemented_capability_propagates noFitSpecies defaultConfig (fun _ => 0)
      [0] 3 0 false ⟨[7],0,0⟩
      (by
        intro c hc
        have hz : c = 0 := by simpa using hc
        subst hz
        exact ⟨7, rfl⟩)
      ⟨0, by decide, 7, rfl, rfl⟩).1

/-- Claim C9: run sorts the caller supplied list object in place, ascending
by fitness, before the first generation; after a successful run the list the
caller passed in holds exactly the stable fitness sort of the initial
population - a permutation of the input ids arranged in ascending key order,
determined by the initial population alone, independently of the returned
final population. -/
theorem run_sorts_caller_list_in_place {γ} (S : Candidate γ) (C : Config) (o : Nat → Nat)
    (pop : List Nat) (max_runs : Nat) (goal : ℚ) (stab : Bool) (st0 : EvoState γ)
    (r : RunResult γ) (h : run S C o pop max_runs goal stab st0 = .ok r) :
    sortByFitness S st0.heap pop = .ok r.callerList ∧
    r.callerList.Perm pop ∧
    ∃ ks, keyed S st0.heap pop = .ok ks ∧ r.callerList = (sortK ks).map Prod.fst ∧
      List.Pairwise (fun a b : Nat × ℚ => a.2 ≤ b.2) (sortK ks) := by
  simp only [run] at h
  split at h
  · simp at h
  · rename_i sorted hs
    split at h
    · simp at h
    · rename_i it fin st1 hl
      simp only [Except.ok.injEq] at h
      subst h
      have hs2 := hs
      simp only [sortByFitness] at hs2
      split at hs2
      · simp at hs2
      · rename_i ks hk
        simp only [Except.ok.injEq] at hs2
        refine ⟨hs, ?_, ks, hk, hs2.symm, sortK_pairwise ks⟩
        have hperm : ((sortK ks).map Prod.fst).Perm (ks.map Prod.fst) :=
          (sortK_perm ks).map Prod.fst
        rw [keyed_fst S st0.heap pop ks hk] at hperm
        simpa [hs2] using hperm

/-- Claim C9 witness: an initially unsorted caller list [0, 1] with payloads
5 and -1 ends as [1, 0] after run, sorted ascending by fitness. -/
theorem run_sorts_caller_list_in_place_witness :
    (run pairSpecies cut1Config (fun _ => 0) [0,1] 1 99 false ⟨[5,-1],0,0⟩ =
      .ok ⟨2, [1,0], [1,0], ⟨[5,-1],0,2⟩⟩) ∧
    sortByFitness pairSpecies ([5,-1] : List ℚ) [0,1] =
      .ok (⟨2, [1,0], [1,0], ⟨[5,-1],0,2⟩⟩ : RunResult ℚ).callerList ∧
    (⟨2, [1,0], [1,0], ⟨[5,-1],0,2⟩⟩ : RunResult ℚ).callerList.Perm [0,1] := by
  refine ⟨by with_unfolding_all decide, ?_, ?_⟩
  · exact (run_sorts_caller_list_in_place pairSpecies cut1Config (fun _ => 0) [0,1] 1 99
      false ⟨[5,-1],0,0⟩ ⟨2, [1,0], [1,0], ⟨[5,-1],0,2⟩⟩ (by with_unfolding_all decide)).1
  · exact (run_sorts_caller_list_in_place pairSpecies cut1Config (fun _ => 0) [0,1] 1 99
      false ⟨[5,-1],0,0⟩ ⟨2, [1,0], [1,0], ⟨[5,-1],0,2⟩⟩
      (by with_unfolding_all decide)).2.1

/-- Claim C10: run never evaluates a termination condition on the initial
population: for every non-empty population and every max_runs (a natural
number, so at least 0), a successful run has performed at least one darwin
generation step - the generation counter strictly increases - before any
goal or stabilization check was applied, even when the initial best fitness
already equals the goal (see the witness, where max_runs = 0 and the initial
best fitness equals the goal, yet one full generation runs first). -/
theorem run_darwin_before_checks {γ} (S : Candidate γ) (C : Config) (o : Nat → Nat)
    (pop : List Nat) (max_runs : Nat) (goal : ℚ) (stab : Bool) (st0 : EvoState γ)
    (r : RunResult γ) (hne : pop ≠ [])
    (h : run S C o pop max_runs goal stab st0 = .ok r) :
    st0.calls + 1 ≤ r.state.calls := by
  simp only [run] at h
  split at h
  · simp at h
  · rename_i sorted hs
    split at h
    · simp at h
    · rename_i it fin st1 hl
      simp only [Except.ok.injEq] at h
      subst h
      have := runLoop_calls_succ S C o goal stab max_runs 0 0 sorted st0 (it, fin, st1) hl
      simpa using this

/-- Claim C10 witness: initial best fitness 0 equals the goal 0 and
max_runs = 0, yet the run performs one full generation (the counter goes
from 0 to 1) before stopping at iteration 0. -/
theorem run_darwin_before_checks_witness :
    (([0,1] : List Nat) ≠ [] ∧
      run pairSpecies cut1Config (fun _ => 0) [0,1] 0 0 false ⟨[0,5],0,0⟩ =
        .ok ⟨0, [0,1], [0,1], ⟨[0,5],0,1⟩⟩) ∧
    (⟨[0,5],0,0⟩ : EvoState ℚ).calls + 1 ≤
      (⟨0, [0,1], [0,1], ⟨[0,5],0,1⟩⟩ : RunResult ℚ).state.calls := by
  refine ⟨⟨by decide, by with_unfolding_all decide⟩, ?_⟩
  exact run_darwin_before_checks pairSpecies cut1Config (fun _ => 0) [0,1] 0 0 false
    ⟨[0,5],0,0⟩ ⟨0, [0,1], [0,1], ⟨[0,5],0,1⟩⟩ (by decide) (by with_unfolding_all decide)
